import Mathlib

/-!
Shallow embedding of the benchmarking harness in `cpu_bound.py` and
`python_bench/io_bound.py`, together with theorems settling the testable
properties of its specification.

Modelling conventions:
- Python non-negative machine arithmetic on `int` is `Nat`; the 32-bit mask
  `& 0xFFFFFFFF` is `% 2 ^ 32`.
- Python `float` durations are `ℚ`; the `float("nan")` escape values returned
  by `median` / `min` / `max` on an empty list are modelled by `Option ℚ`
  with `none` standing for NaN.
- Bytes are `Nat`; a byte string is `List Nat`.
- The kernel side of a TCP socket is an oracle `chunks : List (List Nat)`:
  the k-th blocking `recv` call returns the k-th chunk (truncated to the
  requested length, since `recv(n)` returns at most `n` bytes); an empty
  chunk models the peer having closed the connection (EOF), and an
  exhausted oracle models a read that never completes (the 20 s timeout).
- Fallible Python code (raised exceptions) is `Except` / error-carrying
  results.
-/

namespace PyBench

/-! ### CPU workload (cpu_bound.py, lines 58-62) -/

/-- `cpu_work(units)`: starting from `acc = 0`, performs `units` iterations of
`acc = (acc * 1664525 + 1013904223 + i) & 0xFFFFFFFF` for `i` in
`range(units)` and returns the accumulator. -/
def cpu_work (units : Nat) : Nat :=
  (List.range units).foldl (fun acc i => (acc * 1664525 + 1013904223 + i) % 2 ^ 32) 0

/-! ### Statistics and Result (cpu_bound.py lines 19-20 and 29-44; the same
definitions appear verbatim in io_bound.py lines 19-20 and 29-44) -/

/-- CPython `statistics.median`: sort the data (CPython `sorted` is a stable
merge sort), take the middle element when the length is odd, and the mean of
the two middle elements when the length is even.  The empty case is guarded
at the call site (`median` below), so the out-of-range default of `getD`
is never reached. -/
def statisticsMedian (xs : List ℚ) : ℚ :=
  let data := xs.mergeSort (fun a b => decide (a ≤ b))
  let n := xs.length
  if n % 2 = 1 then data.getD (n / 2) 0
  else (data.getD (n / 2 - 1) 0 + data.getD (n / 2) 0) / 2

/-- `median(xs)`: `statistics.median(xs) if xs else float("nan")`
(`none` models NaN). -/
def median (xs : List ℚ) : Option ℚ :=
  if xs = [] then none else some (statisticsMedian xs)

/-- `Result`: a label and the ordered list of recorded durations. -/
structure Result where
  name : String
  runs : List ℚ
deriving DecidableEq, Repr

/-- `Result.med`: `median(self.runs)`. -/
def Result.med (r : Result) : Option ℚ :=
  median r.runs

/-- `Result.min`: `min(self.runs) if self.runs else float("nan")`; Python
`min` over a non-empty sequence is a left fold of binary min. -/
def Result.min (r : Result) : Option ℚ :=
  match r.runs with
  | [] => none
  | x :: xs => some (xs.foldl Min.min x)

/-- `Result.max`: `max(self.runs) if self.runs else float("nan")`. -/
def Result.max (r : Result) : Option ℚ :=
  match r.runs with
  | [] => none
  | x :: xs => some (xs.foldl Max.max x)

/-- The conventional statistical median as the spec words it: the middle
element of the data in sorted order for odd length, the arithmetic mean of
the two middle elements for even length (interpolated, not nearest-rank).
Stated over an insertion sort, independently of the merge sort used by the
embedding of `statistics.median`. -/
def specMedian (xs : List ℚ) : ℚ :=
  let s := List.insertionSort (· ≤ ·) xs
  if xs.length % 2 = 1 then s.getD (xs.length / 2) 0
  else (s.getD (xs.length / 2 - 1) 0 + s.getD (xs.length / 2) 0) / 2

/-! ### Worker-pool sizes (io_bound.py lines 135-142, cpu_bound.py
lines 69-72) -/

/-- The `max_workers` argument of the pool in `io_bench_processes`:
`proc_workers = min(concurrency, 64)` (io_bound.py line 138). -/
def io_bench_processes_workers (concurrency : Nat) : Nat :=
  min concurrency 64

/-- The `max_workers` argument of the pool in `cpu_bench_processes`:
`ProcessPoolExecutor(max_workers=workers)` with `workers` passed through
unchanged (cpu_bound.py line 70). -/
def cpu_bench_processes_workers (workers : Nat) : Nat :=
  workers

/-! ### Echo workload reader (io_bound.py lines 78-92; the thread-pool body
`one` in `io_bench_threads`, lines 118-128, is the identical loop) -/

/-- Failure modes of one echo task. -/
inductive IOErr where
  /-- `RuntimeError("Socket closed early")`: a `recv` returned no bytes
  before the expected count was reached. -/
  | socketClosedEarly : IOErr
  /-- `RuntimeError("Echo mismatch")`: the received bytes differ from the
  payload. -/
  | echoMismatch : IOErr
  /-- The 20 s socket timeout: a blocking read never completed. -/
  | timeoutErr : IOErr
  /-- `asyncio.IncompleteReadError` raised by `readexactly` on EOF. -/
  | incompleteRead : IOErr
deriving DecidableEq, Repr

/-- The accumulation loop of `io_process_worker`:
`while len(recvd) < len(payload): chunk = s.recv(len(payload) - len(recvd));
if not chunk: raise; recvd += chunk`.  Each `recv` consumes the next oracle
chunk, truncated to the requested byte count. -/
def recvLoop (payload : List Nat) : List Nat → List (List Nat) → Except IOErr (List Nat)
  | recvd, chunks =>
    if recvd.length < payload.length then
      match chunks with
      | [] => .error .timeoutErr
      | c :: rest =>
        let chunk := c.take (payload.length - recvd.length)
        if chunk = [] then .error .socketClosedEarly
        else recvLoop payload (recvd ++ chunk) rest
    else .ok recvd

/-- `io_process_worker`: send the payload, read it back with `recvLoop`,
raise `Echo mismatch` if the received bytes differ from the payload, and
return 1 on success. -/
def io_process_worker (payload : List Nat) (chunks : List (List Nat)) : Except IOErr Nat :=
  match recvLoop payload [] chunks with
  | .error e => .error e
  | .ok recvd => if recvd ≠ payload then .error .echoMismatch else .ok 1

/-- `asyncio.StreamReader.readexactly(n)`: accumulate reads until at least
`n` bytes are buffered and return exactly `n` of them; EOF (an empty chunk)
before that raises `IncompleteReadError`; `readexactly(0)` returns
immediately without reading. -/
def readexactly (n : Nat) : List Nat → List (List Nat) → Except IOErr (List Nat)
  | acc, chunks =>
    if n ≤ acc.length then .ok (acc.take n)
    else
      match chunks with
      | [] => .error .timeoutErr
      | [] :: _ => .error .incompleteRead
      | c :: rest => readexactly n (acc ++ c) rest

/-- `io_client_once`: write the payload, `readexactly(len(payload))`, raise
`Echo mismatch` if the data differs from the payload. -/
def io_client_once (payload : List Nat) (chunks : List (List Nat)) : Except IOErr Unit :=
  match readexactly payload.length [] chunks with
  | .error e => .error e
  | .ok data => if data ≠ payload then .error .echoMismatch else .ok ()

/-! ### Trial runner (cpu_bound.py lines 85-105; io_bound.py lines 144-182).
`run_repeated`, `run_repeated_async` and `run_repeated_blocking` are the
same two sequential loops — warmup calls, then measured calls — differing
only in how the invocation is awaited, which is invisible to a sequential
embedding.  The invocation is `fn : σ → Except ε σ` over an abstract world
state `σ`; `clock : σ → ℚ` reads the monotonic clock `time.perf_counter`
without changing the world. -/

section TrialRunner

variable {σ ε : Type}

/-- The warmup loop: `for _ in range(warmup): fn()`, no timing recorded. -/
def warmupLoop (fn : σ → Except ε σ) : Nat → σ → Except ε σ
  | 0, s => .ok s
  | n + 1, s =>
    match fn s with
    | .error e => .error e
    | .ok s1 => warmupLoop fn n s1

/-- The measured loop:
`for _ in range(repeats): t0 = now(); fn(); runs.append(now() - t0)`. -/
def measureLoop (fn : σ → Except ε σ) (clock : σ → ℚ) :
    Nat → σ → List ℚ → Except ε (List ℚ × σ)
  | 0, s, runs => .ok (runs, s)
  | n + 1, s, runs =>
    let t0 := clock s
    match fn s with
    | .error e => .error e
    | .ok s1 => measureLoop fn clock n s1 (runs ++ [clock s1 - t0])

/-- `run_repeated(label, repeats, fn, warmup)`: warmup phase, then measured
phase, then `Result(label, runs)`. -/
def run_repeated (label : String) (repeats : Nat) (fn : σ → Except ε σ)
    (clock : σ → ℚ) (warmup : Nat) (s : σ) : Except ε (Result × σ) :=
  match warmupLoop fn warmup s with
  | .error e => .error e
  | .ok s1 =>
    match measureLoop fn clock repeats s1 [] with
    | .error e => .error e
    | .ok (runs, s2) => .ok (Result.mk label runs, s2)

end TrialRunner

/-! ### Cooperative scheduling model (cpu_bound.py lines 74-82, io_bound.py
lines 106-113).  Both benches build `tasks` coroutines
`async def one(): async with sem: <body>` and `await asyncio.gather(*...)`.
The model follows the documented CPython semantics of the event loop,
`asyncio.Semaphore` and `asyncio.gather` with the default
`return_exceptions=False`: tasks start in creation order through a FIFO
ready queue; acquiring an available semaphore slot does not suspend;
a task blocked on the semaphore waits until a release wakes it; `gather`
returns normally once every task has completed, and the first exception is
propagated to the awaiter as soon as it is raised, without cancelling or
awaiting the remaining tasks. -/

/-- A task body as the cooperative scheduler sees it: it either completes,
raises, or suspends at an await point and resumes with the continuation. -/
inductive Co where
  | ret : Co
  | throw : IOErr → Co
  | suspend : Co → Co
deriving DecidableEq, Repr

/-- Scheduling state of one task of a `gather` call. -/
inductive Phase where
  /-- Created, not yet past `async with sem`. -/
  | toAcquire : Co → Phase
  /-- Holding a semaphore slot, body partially run. -/
  | body : Co → Phase
  /-- Completed; `none` is success, `some e` a raised exception. -/
  | finished : Option IOErr → Phase
deriving DecidableEq, Repr

/-- Event-loop state for one `gather` call gated by one semaphore. -/
structure LoopState where
  /-- Free semaphore slots (`asyncio.Semaphore(concurrency)`). -/
  sem : Nat
  /-- All tasks, indexed by creation order. -/
  tasks : List Phase
  /-- FIFO ready queue of task indices. -/
  ready : List Nat
  /-- FIFO queue of task indices blocked on the semaphore. -/
  waiting : List Nat
deriving DecidableEq, Repr

/-- `Semaphore.release` (the exit of `async with sem`): increment the
counter and move the first waiter, if any, to the back of the ready
queue. -/
def release (st : LoopState) : LoopState :=
  match st.waiting with
  | [] => { st with sem := st.sem + 1 }
  | w :: ws => { st with sem := st.sem + 1, waiting := ws, ready := st.ready ++ [w] }

/-- Run the body of the task at index `i` up to its next suspension point.
On `ret` the semaphore slot is released and the task finishes successfully;
on `throw e` the `async with` releases the slot as the exception unwinds and
`gather` immediately propagates `e` (left summand: surfaced outcome and the
task states at that moment); on `suspend` the task re-enters the ready
queue. -/
def burst (st : LoopState) (i : Nat) : Co → (Option IOErr × List Phase) ⊕ LoopState
  | .suspend k => .inr { st with tasks := st.tasks.set i (.body k), ready := st.ready ++ [i] }
  | .ret => .inr (release { st with tasks := st.tasks.set i (.finished none) })
  | .throw e => .inl (some e, st.tasks.set i (.finished (some e)))

/-- The event loop driving one `gather` call, with fuel.  Returns `none`
when the fuel runs out or the loop can make no progress (modelling a hang,
which never happens on the concrete instances used below), and otherwise
`some (outcome, states)`: the outcome `gather` surfaced and every task
state at that moment. -/
def gatherRun : Nat → LoopState → Option (Option IOErr × List Phase)
  | 0, _ => none
  | fuel + 1, st =>
    match st.ready with
    | [] =>
      if (∀ p ∈ st.tasks, p = Phase.finished none) then some (none, st.tasks) else none
    | i :: rest =>
      match st.tasks[i]? with
      | none => none
      | some (Phase.finished _) => none
      | some (Phase.toAcquire b) =>
        if st.sem = 0 then
          gatherRun fuel { st with ready := rest, waiting := st.waiting ++ [i] }
        else
          match burst { st with sem := st.sem - 1, ready := rest } i b with
          | .inl out => some out
          | .inr st1 => gatherRun fuel st1
      | some (Phase.body b) =>
        match burst { st with ready := rest } i b with
        | .inl out => some out
        | .inr st1 => gatherRun fuel st1

/-- Await points remaining in a body (used only to size the fuel). -/
def coSize : Co → Nat
  | .ret => 1
  | .throw _ => 1
  | .suspend k => coSize k + 1

/-- Generous fuel bound for a `gather` over the given bodies. -/
def gatherFuel (bodies : List Co) : Nat :=
  (bodies.map coSize).sum + bodies.length * (bodies.length + 2) + 1

/-- `io_bench_asyncio(tasks, concurrency, port, payload)`: `tasks` copies of
`one()` (semaphore-gated `io_client_once`), joined by `asyncio.gather`.
`bodies k` is the scheduling behaviour of task k as a `Co`: where it
suspends (connection, drain, reads) and whether it raises. -/
def io_bench_asyncio (taskCount concurrency : Nat) (bodies : Nat → Co) :
    Option (Option IOErr × List Phase) :=
  gatherRun (gatherFuel ((List.range taskCount).map bodies))
    { sem := concurrency
      tasks := (List.range taskCount).map (fun k => Phase.toAcquire (bodies k))
      ready := List.range taskCount
      waiting := [] }

/-- `cpu_bench_asyncio(tasks, units, concurrency)`: identical gather
structure; each body runs `cpu_work units`, which has no await point and no
failure mode, so every body is `Co.ret`. -/
def cpu_bench_asyncio (taskCount concurrency _units : Nat) :
    Option (Option IOErr × List Phase) :=
  io_bench_asyncio taskCount concurrency (fun _ => Co.ret)

/-! ## Theorems -/

/-- Helper: one unfolding of the `cpu_work` loop. -/
theorem cpu_work_succ (n : Nat) :
    cpu_work (n + 1) = (cpu_work n * 1664525 + 1013904223 + n) % 2 ^ 32 := by
  simp [cpu_work, List.range_succ]

/-- C5: `cpu_work(units)` is deterministic and side-effect free (it is a pure
function of `units` in this embedding, mirroring the absence of any state
access in the source), and it is exactly the `units`-fold iteration of the
recurrence `acc := (acc * 1664525 + 1013904223 + i) mod 2^32` from `acc = 0`,
folding in the iteration index: so two calls with the same `units` return the
same value and perform the same number of recurrence steps. -/
theorem cpu_work_recurrence (units : Nat) :
    cpu_work 0 = 0 ∧
    cpu_work (units + 1) = (cpu_work units * 1664525 + 1013904223 + units) % 2 ^ 32 :=
  ⟨rfl, by simp [cpu_work, List.range_succ]⟩

/-- C9: the 32-bit mask applied at every iteration keeps the accumulator
below `2^32`, so `cpu_work units < 2^32` for every `units` (and the value is
a `Nat`, hence in `[0, 2^32)`). -/
theorem cpu_work_lt_two_pow_32 (units : Nat) : cpu_work units < 2 ^ 32 := by
  cases units with
  | zero => norm_num [cpu_work]
  | succ n =>
    rw [cpu_work_succ]
    exact Nat.mod_lt _ (by norm_num)

/-- C3 counterexample: at requested concurrency 100, `cpu_bench_processes`
creates its pool with 100 workers, not `min(100, 64) = 64`: the 64 cap does
not apply to the CPU-bound ProcessPool strategy. -/
theorem process_pool_cap_counterexample :
    cpu_bench_processes_workers 100 = 100 ∧
    io_bench_processes_workers 100 = 64 ∧
    cpu_bench_processes_workers 100 ≠ Min.min 100 64 := by
  decide

/-- C3 amended: `io_bench_processes` creates its worker pool with
`min(concurrency, 64)` workers (hence never more than 64), while
`cpu_bench_processes` passes the requested concurrency through uncapped. -/
theorem process_pool_worker_counts (c : Nat) :
    io_bench_processes_workers c = Min.min c 64 ∧
    io_bench_processes_workers c ≤ 64 ∧
    cpu_bench_processes_workers c = c :=
  ⟨rfl, Nat.min_le_right c 64, rfl⟩

/-- C7: for the empty payload, one echo task succeeds for every oracle: the
accumulate loop body never executes (the result is `ok` uniformly in the
chunk oracle, so no read is performed), and the byte-for-byte comparison
trivially succeeds.  Covers both the blocking worker (`io_process_worker`)
and the asyncio client (`io_client_once`, whose `readexactly(0)` returns
immediately). -/
theorem empty_payload_echo_succeeds (chunks : List (List Nat)) :
    io_process_worker [] chunks = .ok 1 ∧
    io_client_once [] chunks = .ok () ∧
    recvLoop [] [] chunks = .ok [] := by
  have h3 : recvLoop [] [] chunks = .ok [] := by rw [recvLoop.eq_def]; simp
  have h2 : readexactly 0 [] chunks = .ok [] := by rw [readexactly.eq_def]; simp
  refine ⟨?_, ?_, h3⟩
  · simp [io_process_worker, h3]
  · simp [io_client_once, h2]

/-- Helper: a successful `recvLoop` has read exactly `len(payload)` bytes,
provided it starts with at most that many (the request
`len(payload) - len(recvd)` bounds every chunk, so the count never
overshoots). -/
theorem recvLoop_ok_length (payload : List Nat) :
    ∀ (chunks : List (List Nat)) (recvd r : List Nat),
      recvd.length ≤ payload.length →
      recvLoop payload recvd chunks = .ok r → r.length = payload.length := by
  intro chunks
  induction chunks with
  | nil =>
    intro recvd r hle h
    rw [recvLoop.eq_def] at h
    by_cases hlt : recvd.length < payload.length
    · simp [hlt] at h
    · simp only [hlt, if_false, Except.ok.injEq] at h
      subst h
      omega
  | cons c rest ih =>
    intro recvd r hle h
    rw [recvLoop.eq_def] at h
    by_cases hlt : recvd.length < payload.length
    · simp only [hlt, if_true] at h
      by_cases hc : c.take (payload.length - recvd.length) = []
      · simp [hc] at h
      · simp only [hc, if_false] at h
        refine ih _ _ ?_ h
        have ht : (c.take (payload.length - recvd.length)).length
            ≤ payload.length - recvd.length := by
          simp [List.length_take]
        simp only [List.length_append]
        omega
    · simp only [hlt, if_false, Except.ok.injEq] at h
      subst h
      omega

/-- C4: one echo task reads, accumulating partial reads, until exactly
`len(payload)` bytes are received; a read returning no bytes before the
expected count is reached fails with the distinct connection-closed-early
error; a received sequence differing from the payload fails with the
distinct echo-mismatch error; and the task succeeds exactly when the
received bytes equal the payload byte for byte.  (`io_process_worker` and
the per-task body of `io_bench_threads` are the identical loop; this is the
embedding of both.) -/
theorem io_worker_echo_protocol (payload : List Nat) (chunks : List (List Nat)) :
    (io_process_worker payload chunks = .ok 1 ↔ recvLoop payload [] chunks = .ok payload) ∧
    (∀ r, recvLoop payload [] chunks = .ok r → r.length = payload.length) ∧
    (∀ recvd rest, recvd.length < payload.length →
      recvLoop payload recvd ([] :: rest) = .error .socketClosedEarly) ∧
    (∀ r, recvLoop payload [] chunks = .ok r → r ≠ payload →
      io_process_worker payload chunks = .error .echoMismatch) ∧
    IOErr.socketClosedEarly ≠ IOErr.echoMismatch := by
  refine ⟨⟨?_, ?_⟩, ?_, ?_, ?_, by decide⟩
  · intro h
    rcases hr : recvLoop payload [] chunks with e | r
    · simp [io_process_worker, hr] at h
    · by_cases hrp : r = payload
      · subst hrp; rfl
      · simp [io_process_worker, hr, hrp] at h
  · intro h
    simp [io_process_worker, h]
  · intro r h
    exact recvLoop_ok_length payload chunks [] r (Nat.zero_le _) h
  · intro recvd rest h
    rw [recvLoop.eq_def]
    simp [h]
  · intro r h hne
    simp [io_process_worker, h, hne]

/-- C4 witness: on payload `[7, 8]` delivered in two partial reads the task
succeeds, and an empty read after one byte fails with the
connection-closed-early error. -/
theorem io_worker_echo_protocol_witness :
    io_process_worker [7, 8] [[7], [8]] = .ok 1 ∧
    recvLoop [7, 8] [7] ([] :: []) = .error .socketClosedEarly :=
  ⟨(io_worker_echo_protocol [7, 8] [[7], [8]]).1.mpr (by rfl),
   (io_worker_echo_protocol [7, 8] [[7], [8]]).2.2.1 [7] [] (by decide)⟩

/-- Helper: on `ℚ` the merge sort used by the embedding of
`statistics.median` and the insertion sort used by the spec-side median
agree, both being sorted permutations of the input. -/
theorem mergeSort_eq_insertionSort (xs : List ℚ) :
    xs.mergeSort (fun a b => decide (a ≤ b)) = List.insertionSort (· ≤ ·) xs := by
  have hperm : List.Perm (xs.mergeSort (fun a b => decide (a ≤ b)))
      (List.insertionSort (· ≤ ·) xs) :=
    (List.mergeSort_perm xs _).trans (List.perm_insertionSort _ xs).symm
  have hs1 : List.Sorted (· ≤ ·) (xs.mergeSort (fun a b => decide (a ≤ b))) := by
    have h := @List.sorted_mergeSort ℚ (fun a b => decide (a ≤ b))
      (fun a b c h1 h2 => by
        simp only [decide_eq_true_eq] at h1 h2 ⊢
        exact le_trans h1 h2)
      (fun a b => by simpa using le_total a b) xs
    exact h.imp (fun hab => by simpa using hab)
  have hs2 : List.Sorted (· ≤ ·) (List.insertionSort (· ≤ ·) xs) :=
    List.sorted_insertionSort _ xs
  exact List.eq_of_perm_of_sorted hperm hs1 hs2

/-- C8: for a non-empty durations list, `Result.med` is the conventional
statistical median: the middle element of the sorted data for odd length,
the arithmetic mean of the two middle elements for even length
(interpolated, not nearest-rank). -/
theorem result_med_is_spec_median (r : Result) (h : r.runs ≠ []) :
    r.med = some (specMedian r.runs) := by
  rw [Result.med, median, if_neg h]
  simp only [statisticsMedian, specMedian, mergeSort_eq_insertionSort]

/-- C8 witness: the even-length list `[3, 1, 2, 4]` has interpolated median
`(2 + 3) / 2 = 5/2`. -/
theorem result_med_is_spec_median_witness :
    (Result.mk "t" [3, 1, 2, 4]).med = some (specMedian [3, 1, 2, 4]) ∧
    specMedian [3, 1, 2, 4] = 5 / 2 :=
  ⟨result_med_is_spec_median (Result.mk "t" [3, 1, 2, 4]) (by simp),
   by norm_num [specMedian, List.insertionSort, List.orderedInsert]⟩

/-- Helper: a successful measured loop appends exactly one duration per
iteration. -/
theorem measureLoop_ok_length {σ ε : Type} (fn : σ → Except ε σ) (clock : σ → ℚ) :
    ∀ (n : Nat) (s : σ) (runs out : List ℚ) (s2 : σ),
      measureLoop fn clock n s runs = .ok (out, s2) →
      out.length = runs.length + n := by
  intro n
  induction n with
  | zero =>
    intro s runs out s2 h
    rw [measureLoop] at h
    cases h
    simp
  | succ n ih =>
    intro s runs out s2 h
    rw [measureLoop] at h
    cases hf : fn s with
    | error e => rw [hf] at h; cases h
    | ok s1 =>
      rw [hf] at h
      have := ih s1 (runs ++ [clock s1 - clock s]) out s2 h
      simp only [List.length_append, List.length_cons, List.length_nil] at this
      omega

/-- Helper: with a monotontic clock (`fn` never decreases it), every
duration a successful measured loop appends is non-negative. -/
theorem measureLoop_ok_nonneg {σ ε : Type} (fn : σ → Except ε σ) (clock : σ → ℚ)
    (hmono : ∀ t t', fn t = .ok t' → clock t ≤ clock t') :
    ∀ (n : Nat) (s : σ) (runs out : List ℚ) (s2 : σ),
      measureLoop fn clock n s runs = .ok (out, s2) →
      ∀ d ∈ out, d ∈ runs ∨ 0 ≤ d := by
  intro n
  induction n with
  | zero =>
    intro s runs out s2 h
    rw [measureLoop] at h
    cases h
    exact fun d hd => Or.inl hd
  | succ n ih =>
    intro s runs out s2 h
    rw [measureLoop] at h
    cases hf : fn s with
    | error e => rw [hf] at h; cases h
    | ok s1 =>
      rw [hf] at h
      intro d hd
      rcases ih s1 (runs ++ [clock s1 - clock s]) out s2 h d hd with hmem | hpos
      · rcases List.mem_append.1 hmem with hm | hm
        · exact Or.inl hm
        · right
          simp only [List.mem_singleton] at hm
          have := hmono s s1 hf
          rw [hm]
          linarith
      · exact Or.inr hpos

/-- Helper: a successful measured loop performs exactly one `fn` call per
iteration, measured through any call counter that `fn` advances by one. -/
theorem measureLoop_ok_count {σ ε : Type} (fn : σ → Except ε σ) (clock : σ → ℚ)
    (count : σ → Nat)
    (hcount : ∀ t t', fn t = .ok t' → count t' = count t + 1) :
    ∀ (n : Nat) (s : σ) (runs out : List ℚ) (s2 : σ),
      measureLoop fn clock n s runs = .ok (out, s2) →
      count s2 = count s + n := by
  intro n
  induction n with
  | zero =>
    intro s runs out s2 h
    rw [measureLoop] at h
    cases h
    simp
  | succ n ih =>
    intro s runs out s2 h
    rw [measureLoop] at h
    cases hf : fn s with
    | error e => rw [hf] at h; cases h
    | ok s1 =>
      rw [hf] at h
      have := ih s1 (runs ++ [clock s1 - clock s]) out s2 h
      have := hcount s s1 hf
      omega

/-- Helper: a successful warmup loop performs exactly one `fn` call per
iteration. -/
theorem warmupLoop_ok_count {σ ε : Type} (fn : σ → Except ε σ) (count : σ → Nat)
    (hcount : ∀ t t', fn t = .ok t' → count t' = count t + 1) :
    ∀ (w : Nat) (s s1 : σ), warmupLoop fn w s = .ok s1 → count s1 = count s + w := by
  intro w
  induction w with
  | zero =>
    intro s s1 h
    rw [warmupLoop] at h
    cases h
    simp
  | succ w ih =>
    intro s s1 h
    rw [warmupLoop] at h
    cases hf : fn s with
    | error e => rw [hf] at h; cases h
    | ok s0 =>
      rw [hf] at h
      have := ih s0 s1 h
      have := hcount s s0 hf
      omega

/-- Helper: the warmup loop succeeds whenever every `fn` call succeeds. -/
theorem warmupLoop_total {σ ε : Type} (fn : σ → Except ε σ)
    (htot : ∀ t, ∃ t', fn t = .ok t') :
    ∀ (w : Nat) (s : σ), ∃ s1, warmupLoop fn w s = .ok s1 := by
  intro w
  induction w with
  | zero => exact fun s => ⟨s, rfl⟩
  | succ w ih =>
    intro s
    obtain ⟨s0, hs0⟩ := htot s
    obtain ⟨s1, hs1⟩ := ih s0
    exact ⟨s1, by rw [warmupLoop, hs0]; exact hs1⟩

/-- C1: for repeats `r ≥ 1` and any warmup, a successful `run_repeated` call
(the embedding shared by `run_repeated`, `run_repeated_async` and
`run_repeated_blocking`) returns a Result whose durations list has exactly
`r` entries, each `≥ 0` (the clock being monotonic), in recording order
(the list is built by appending each trial duration in trial order). -/
theorem run_repeated_durations {σ ε : Type} (label : String) (repeats : Nat)
    (fn : σ → Except ε σ) (clock : σ → ℚ) (warmup : Nat) (s : σ)
    (res : Result) (s2 : σ)
    (hmono : ∀ t t', fn t = .ok t' → clock t ≤ clock t')
    (hrep : 1 ≤ repeats)
    (hok : run_repeated label repeats fn clock warmup s = .ok (res, s2)) :
    res.runs.length = repeats ∧ ∀ d ∈ res.runs, 0 ≤ d := by
  rw [run_repeated] at hok
  split at hok
  · cases hok
  · rename_i s1 hw
    split at hok
    · cases hok
    · rename_i runs s3 hm
      cases hok
      constructor
      · simpa using measureLoop_ok_length fn clock repeats s1 [] runs s2 hm
      · intro d hd
        rcases measureLoop_ok_nonneg fn clock hmono repeats s1 [] runs s2 hm d hd with
          hmem | hpos
        · cases hmem
        · exact hpos

/-- C1 witness: a concrete monotonic world (state is the clock itself,
each invocation advances it by one second) with warmup 1 and repeats 2
records exactly the durations `[1, 1]`. -/
theorem run_repeated_durations_witness :
    (Result.mk "w" [1, 1]).runs.length = 2 ∧ ∀ d ∈ (Result.mk "w" [1, 1]).runs, 0 ≤ d :=
  run_repeated_durations "w" 2 (fun t : ℚ => (Except.ok (t + 1) : Except Unit ℚ)) id 1 0
    (Result.mk "w" [1, 1]) 3
    (fun t t' h => by
      simp only [Except.ok.injEq] at h
      subst h
      simp only [id_eq]
      linarith)
    (by norm_num)
    (by norm_num [run_repeated, warmupLoop, measureLoop])

/-- C6: a successful `run_repeated` call executes the invocation exactly
`warmup + repeats` times: it factors as a warmup phase of exactly `warmup`
calls recording nothing, followed by a measured phase of exactly `repeats`
calls from the warmed-up state, recording exactly the `repeats` durations
of the returned Result.  The call count is observed through any counter
that one `fn` call advances by one. -/
theorem run_repeated_call_count {σ ε : Type} (label : String) (repeats : Nat)
    (fn : σ → Except ε σ) (clock : σ → ℚ) (warmup : Nat) (s : σ)
    (res : Result) (s2 : σ) (count : σ → Nat)
    (hcount : ∀ t t', fn t = .ok t' → count t' = count t + 1)
    (hok : run_repeated label repeats fn clock warmup s = .ok (res, s2)) :
    ∃ s1, warmupLoop fn warmup s = .ok s1 ∧ count s1 = count s + warmup ∧
      measureLoop fn clock repeats s1 [] = .ok (res.runs, s2) ∧
      count s2 = count s1 + repeats ∧
      count s2 = count s + (warmup + repeats) ∧
      res.runs.length = repeats := by
  rw [run_repeated] at hok
  split at hok
  · cases hok
  · rename_i s1 hw
    split at hok
    · cases hok
    · rename_i runs s3 hm
      cases hok
      have hwc := warmupLoop_ok_count fn count hcount warmup s s1 hw
      have hmc := measureLoop_ok_count fn clock count hcount repeats s1 [] runs s2 hm
      have hml := measureLoop_ok_length fn clock repeats s1 [] runs s2 hm
      exact ⟨s1, hw, hwc, hm, hmc, by omega, by simpa using hml⟩

/-- C6 witness: state is a bare call counter; warmup 1 and repeats 2 give
one unmeasured call, then two measured calls, three calls in total. -/
theorem run_repeated_call_count_witness :
    ∃ s1, warmupLoop (fun n : Nat => (Except.ok (n + 1) : Except Unit Nat)) 1 0 = .ok s1 ∧
      s1 = 0 + 1 ∧
      measureLoop (fun n : Nat => (Except.ok (n + 1) : Except Unit Nat))
        (fun n => (n : ℚ)) 2 s1 [] = .ok ((Result.mk "w" [1, 1]).runs, 3) ∧
      (3 : Nat) = s1 + 2 ∧
      (3 : Nat) = 0 + (1 + 2) ∧
      (Result.mk "w" [1, 1]).runs.length = 2 :=
  run_repeated_call_count "w" 2 (fun n : Nat => (Except.ok (n + 1) : Except Unit Nat))
    (fun n => (n : ℚ)) 1 0 (Result.mk "w" [1, 1]) 3 id
    (fun t t' h => by
      simp only [Except.ok.injEq] at h
      subst h
      simp)
    (by norm_num [run_repeated, warmupLoop, measureLoop])

/-- C10: the derived statistics of an empty-durations Result are total and
return the NaN escape value (`none`) rather than raising; and with
`repeats = 0`, `run_repeated` returns such an empty Result instead of
failing, for every invocation whose warmup calls succeed. -/
theorem empty_result_nan_stats (σ ε : Type) :
    (∀ name : String, (Result.mk name []).med = none ∧
      (Result.mk name []).min = none ∧ (Result.mk name []).max = none) ∧
    (∀ (label : String) (fn : σ → Except ε σ) (clock : σ → ℚ) (warmup : Nat) (s : σ),
      (∀ t, ∃ t', fn t = .ok t') →
      ∃ s2, run_repeated label 0 fn clock warmup s = .ok (Result.mk label [], s2)) := by
  constructor
  · intro name
    refine ⟨?_, rfl, rfl⟩
    simp [Result.med, median]
  · intro label fn clock warmup s htot
    obtain ⟨s1, hs1⟩ := warmupLoop_total fn htot warmup s
    exact ⟨s1, by rw [run_repeated, hs1]; rfl⟩

/-- C10 witness: a concrete always-succeeding invocation with warmup 1 and
repeats 0 yields the empty Result, whose statistics are all `none`. -/
theorem empty_result_nan_stats_witness :
    ((Result.mk "t" []).med = none ∧
      (Result.mk "t" []).min = none ∧ (Result.mk "t" []).max = none) ∧
    ∃ s2, run_repeated "t" 0 (fun n : Nat => (Except.ok (n + 1) : Except Unit Nat))
      (fun n => (n : ℚ)) 1 0 = .ok (Result.mk "t" [], s2) :=
  ⟨(empty_result_nan_stats Nat Unit).1 "t",
   (empty_result_nan_stats Nat Unit).2 "t" _ _ 1 0 (fun t => ⟨t + 1, rfl⟩)⟩

/-- Helper: releasing the semaphore does not change any task state. -/
theorem release_tasks (st : LoopState) : (release st).tasks = st.tasks := by
  rw [release.eq_def]
  split <;> rfl

/-- Helper: whenever the event loop returns, the returned snapshot covers
every task; a normal return means every task finished successfully, and an
error return contains a task that finished with exactly that exception. -/
theorem gatherRun_join :
    ∀ (fuel : Nat) (st : LoopState) (res : Option IOErr) (states : List Phase),
      gatherRun fuel st = some (res, states) →
      states.length = st.tasks.length ∧
      (res = none → ∀ p ∈ states, p = Phase.finished none) ∧
      (∀ e, res = some e → Phase.finished (some e) ∈ states) := by
  intro fuel
  induction fuel with
  | zero =>
    intro st res states h
    simp [gatherRun] at h
  | succ fuel ih =>
    intro st res states h
    rw [gatherRun] at h
    split at h
    · split at h
      · rename_i hall
        cases h
        exact ⟨rfl, fun _ => hall, fun e he => nomatch he⟩
      · simp at h
    · rename_i i rest hready
      split at h
      · simp at h
      · simp at h
      · rename_i b hti
        have hi : i < st.tasks.length := (List.getElem?_eq_some_iff.1 hti).1
        split at h
        · have h3 := ih _ res states h
          simpa using h3
        · cases b with
          | suspend k =>
            simp only [burst] at h
            have h3 := ih _ res states h
            simpa using h3
          | ret =>
            simp only [burst] at h
            have h3 := ih _ res states h
            rw [release_tasks] at h3
            simpa using h3
          | throw e =>
            simp only [burst] at h
            cases h
            refine ⟨by simp, ?_, ?_⟩
            · intro hres
              cases hres
            · intro e2 he2
              cases he2
              exact List.mem_set st.tasks i hi _
      · rename_i b hti
        have hi : i < st.tasks.length := (List.getElem?_eq_some_iff.1 hti).1
        cases b with
        | suspend k =>
          simp only [burst] at h
          have h3 := ih _ res states h
          simpa using h3
        | ret =>
          simp only [burst] at h
          have h3 := ih _ res states h
          rw [release_tasks] at h3
          simpa using h3
        | throw e =>
          simp only [burst] at h
          cases h
          refine ⟨by simp, ?_, ?_⟩
          · intro hres
            cases hres
          · intro e2 he2
            cases he2
            exact List.mem_set st.tasks i hi _

/-- C2 counterexample: two tasks under `asyncio.gather` at concurrency 2;
task 0 raises at once, task 1 still has a pending await.  Per the documented
`gather` semantics (default `return_exceptions=False`), the failure is
propagated immediately: the call returns carrying the first failure while
task 1 has not completed (it has not even entered `async with sem`) — so
the failure is NOT surfaced only after all tasks finish, and the call does
not return only when all tasks have completed. -/
theorem asyncio_gather_short_circuits :
    io_bench_asyncio 2 2 (fun k => if k = 0 then Co.throw IOErr.echoMismatch else Co.suspend Co.ret)
      = some (some IOErr.echoMismatch,
          [Phase.finished (some IOErr.echoMismatch), Phase.toAcquire (Co.suspend Co.ret)]) ∧
    Phase.toAcquire (Co.suspend Co.ret) ≠ Phase.finished none :=
  ⟨rfl, by decide⟩

/-- C2 amended: a `cpu_bench_asyncio` / `io_bench_asyncio` invocation that
returns WITHOUT failure does so only when all `task_count` tasks have
completed (the returned snapshot has one state per task, all finished
successfully); when a task fails, the first failure is surfaced immediately
(the snapshot contains a task finished with exactly that exception), and —
as the counterexample shows — the remaining tasks need not have finished:
`asyncio.gather` short-circuits on failure rather than mirroring the
all-or-nothing join of the other two strategies. -/
theorem io_bench_asyncio_join (taskCount concurrency : Nat) (bodies : Nat → Co)
    (res : Option IOErr) (states : List Phase)
    (h : io_bench_asyncio taskCount concurrency bodies = some (res, states)) :
    states.length = taskCount ∧
    (res = none → ∀ p ∈ states, p = Phase.finished none) ∧
    (∀ e, res = some e → Phase.finished (some e) ∈ states) := by
  obtain ⟨h1, h2, h3⟩ := gatherRun_join _ _ res states h
  exact ⟨by simpa using h1, h2, h3⟩

/-- C2 witness: one always-succeeding task at concurrency 1 returns
normally with a snapshot of exactly its one finished task. -/
theorem io_bench_asyncio_join_witness :
    [Phase.finished (none : Option IOErr)].length = 1 :=
  (io_bench_asyncio_join 1 1 (fun _ => Co.ret) none [Phase.finished none] (by rfl)).1

end PyBench
